import Mathlib

/-!
Verification of the CEK planned-outages parser
(`custom_components/yasno_outages/api/cek.py`).

The Python module is shallowly embedded below.  Message texts are modelled
as `List Char`; the regular expressions of the source are modelled by
explicit leftmost-match scanners with the same backtracking behaviour;
Python dictionaries keyed by group / day strings are modelled by
association lists and two-field records; machine integers are `Nat`/`Int`.
The publication-timestamp (`updatedOn`) bookkeeping of
`_parse_messages_to_schedule` is not modelled: it writes a field no other
part of the module reads.
-/

namespace Cek

/-- `MINUTES_IN_DAY` from the source. -/
def MINUTES_IN_DAY : Nat := 1440

/-- `MONTH_JANUARY` from the source. -/
def MONTH_JANUARY : Nat := 1

/-- `MONTH_DECEMBER` from the source. -/
def MONTH_DECEMBER : Nat := 12

/-- `OutageEventType` values used by `_ranges_to_slots`. -/
inductive SlotKind where
  | definite
  | notPlanned
deriving DecidableEq, Repr

/-- One slot of `_ranges_to_slots` output: the dict
`{"start": .., "end": .., "type": ..}`.  The `end` key is called `stop`
because `end` is a Lean keyword. -/
structure Slot where
  start : Nat
  stop : Nat
  kind : SlotKind
deriving DecidableEq, Repr

/-- Python tuple ordering on `(start, end)` pairs, as used by
`ranges.sort()` in `_ranges_to_slots`. -/
def lexLe (a b : Nat × Nat) : Prop :=
  a.1 < b.1 ∨ (a.1 = b.1 ∧ a.2 ≤ b.2)

instance : DecidableRel lexLe := fun a b =>
  decidable_of_iff (a.1 < b.1 ∨ (a.1 = b.1 ∧ a.2 ≤ b.2)) Iff.rfl

instance : IsTotal (Nat × Nat) lexLe :=
  ⟨by intro a b; unfold lexLe; omega⟩

instance : IsTrans (Nat × Nat) lexLe :=
  ⟨by intro a b c; unfold lexLe; omega⟩

instance : IsAntisymm (Nat × Nat) lexLe := by
  constructor
  intro a b h h2
  unfold lexLe at h h2
  have h1 : a.1 = b.1 := by omega
  have hsnd : a.2 = b.2 := by omega
  exact Prod.ext h1 hsnd

/-- `ranges.sort()`: Python sorts tuples lexicographically; the sorted
permutation of a list is unique for this total antisymmetric order, so
insertion sort computes exactly what `list.sort` computes. -/
def sortRanges (l : List (Nat × Nat)) : List (Nat × Nat) :=
  List.insertionSort lexLe l

/-- The sweep loop of `_ranges_to_slots` (lines 417-425): running interval
`(cs, ce)`; a next range starting at or before `ce` is coalesced
(`ce := max ce ne`), a strictly later start closes the current interval. -/
def mergeLoop (cs ce : Nat) : List (Nat × Nat) → List (Nat × Nat)
  | [] => [(cs, ce)]
  | (ns, ne) :: rest =>
      if ns ≤ ce then mergeLoop cs (max ce ne) rest
      else (cs, ce) :: mergeLoop ns ne rest

/-- The gap-filling loop of `_ranges_to_slots` (lines 427-454): walk the
merged intervals, inserting a `NotPlanned` filler whenever the next
`Definite` interval starts after the current time, and a final filler up
to minute 1440. -/
def fillSlots (t : Nat) : List (Nat × Nat) → List Slot
  | [] => if t < MINUTES_IN_DAY then [⟨t, MINUTES_IN_DAY, .notPlanned⟩] else []
  | (s, e) :: rest =>
      if t < s then
        ⟨t, s, .notPlanned⟩ :: ⟨s, e, .definite⟩ :: fillSlots e rest
      else
        ⟨s, e, .definite⟩ :: fillSlots e rest

/-- `_ranges_to_slots` (lines 404-456).  An empty input produces one
full-day `NotPlanned` slot; otherwise sort, sweep-merge, and fill gaps. -/
def rangesToSlots : List (Nat × Nat) → List Slot
  | [] => [⟨0, MINUTES_IN_DAY, .notPlanned⟩]
  | r :: rs =>
      match sortRanges (r :: rs) with
      | [] => []
      | (s, e) :: rest => fillSlots 0 (mergeLoop s e rest)

/-- Boolean check that a slot list exactly tiles `[t, 1440)`: each slot
starts where demanded, is not inverted, and hands over at its end; the
final hand-over point is minute 1440.  `tilesFromB 0 slots = true` states
simultaneously: slots are sorted, each slot's start equals the previous
slot's end, the first slot starts at `0`, the last ends at `1440`, no
overlap and no gap. -/
def tilesFromB (t : Nat) : List Slot → Bool
  | [] => t == MINUTES_IN_DAY
  | s :: rest => (s.start == t) && decide (s.start ≤ s.stop) && tilesFromB s.stop rest

/-- Sum of slot durations. -/
def slotSum : List Slot → Nat
  | [] => 0
  | s :: rest => (s.stop - s.start) + slotSum rest

/-- The `(start, end)` pairs of the `Definite` slots of a slot list. -/
def definiteRangesOf (slots : List Slot) : List (Nat × Nat) :=
  (slots.filter (fun s => decide (s.kind = SlotKind.definite))).map (fun s => (s.start, s.stop))

/-- Well-formedness of a merged interval list relative to a current time
`t`: every interval starts no earlier than `t`, is not inverted, ends by
1440, and successive intervals respect the running end. -/
def wfM : Nat → List (Nat × Nat) → Prop
  | t, [] => t ≤ MINUTES_IN_DAY
  | t, (s, e) :: rest => t ≤ s ∧ s ≤ e ∧ e ≤ MINUTES_IN_DAY ∧ wfM e rest

/-- Adjacent merged intervals are separated by a strict gap. -/
def chained : List (Nat × Nat) → Prop
  | [] => True
  | [_] => True
  | (_, e) :: (s2, e2) :: rest => e < s2 ∧ chained ((s2, e2) :: rest)

/-! ### Character classes and string helpers

The source works on Python `str`; texts are modelled as `List Char`.
`\s`, `\d` and the Cyrillic letter class of `RE_DATE` are modelled over
the characters the feed actually uses (ASCII whitespace and digits,
Ukrainian Cyrillic). -/

/-- Python `\s` on the characters the feed uses (ASCII whitespace). -/
def isSpaceCh (c : Char) : Bool :=
  c.toNat = 32 || c.toNat = 9 || c.toNat = 10 || c.toNat = 11 || c.toNat = 12 || c.toNat = 13

/-- Python `\d` (ASCII digits). -/
def isDigitCh (c : Char) : Bool :=
  '0' ≤ c && c ≤ '9'

/-- Digit value. -/
def dval (c : Char) : Nat := c.toNat - '0'.toNat

/-- The character class `[А-ЯІЇЄа-яіїє]` of `RE_DATE`. -/
def isCyrCh (c : Char) : Bool :=
  (0x410 ≤ c.toNat && c.toNat ≤ 0x44F) ||
    c.toNat = 0x406 || c.toNat = 0x407 || c.toNat = 0x404 ||
    c.toNat = 0x456 || c.toNat = 0x457 || c.toNat = 0x454

/-- Python `str.upper()` on the alphabets the module compares
(Ukrainian Cyrillic and ASCII letters). -/
def upperCh (c : Char) : Char :=
  if 0x430 ≤ c.toNat && c.toNat ≤ 0x44F then Char.ofNat (c.toNat - 0x20)
  else if c.toNat = 0x456 || c.toNat = 0x457 || c.toNat = 0x454 then Char.ofNat (c.toNat - 0x50)
  else if 'a' ≤ c && c ≤ 'z' then Char.ofNat (c.toNat - 0x20)
  else c

/-- Python `str.lower()` on the same alphabets. -/
def lowerCh (c : Char) : Char :=
  if 0x410 ≤ c.toNat && c.toNat ≤ 0x42F then Char.ofNat (c.toNat + 0x20)
  else if c.toNat = 0x406 || c.toNat = 0x407 || c.toNat = 0x404 then Char.ofNat (c.toNat + 0x50)
  else if 'A' ≤ c && c ≤ 'Z' then Char.ofNat (c.toNat + 0x20)
  else c

/-- `text.upper()`. -/
def upperList (l : List Char) : List Char := l.map upperCh

/-- `text.lower()`. -/
def lowerList (l : List Char) : List Char := l.map lowerCh

/-- Does `needle` occur at the head of `hay`? -/
def startsWithList : List Char → List Char → Bool
  | [], _ => true
  | _ :: _, [] => false
  | n :: ns, h :: hs => n = h && startsWithList ns hs

/-- Python `needle in hay` substring test. -/
def containsSub (needle : List Char) : List Char → Bool
  | [] => startsWithList needle []
  | c :: rest => startsWithList needle (c :: rest) || containsSub needle rest

/-- `part.strip()` is truthy iff some character is not whitespace. -/
def stripNonempty (l : List Char) : Bool := l.any (fun c => !(isSpaceCh c))

/-- `IGNORED_CITIES` from the source. -/
def IGNORED_CITIES : List (List Char) :=
  ["ЖОВТІ ВОДИ".toList, "ВІЛЬНОГІРСЬК".toList, "ПАВЛОГРАД".toList,
   "ЗЕЛЕНОДОЛЬСЬК".toList, "АПОСТОЛОВЕ".toList, "КРИВОРІЗЬК".toList]

/-- `any(city in msg_text.upper() for city in IGNORED_CITIES)`. -/
def mentionsIgnoredCity (text : List Char) : Bool :=
  IGNORED_CITIES.any (fun city => containsSub city (upperList text))

/-- `FULL_SCHEDULE_MARKERS` from the source. -/
def FULL_SCHEDULE_MARKERS : List (List Char) :=
  ["зміни в гпв".toList, "графік погодинних відключень".toList,
   "застосовуватимуться відключення наступних черг".toList,
   "графік може змінюватися".toList]

/-- `any(m in msg_text.lower() for m in FULL_SCHEDULE_MARKERS)`. -/
def isFullUpdate (text : List Char) : Bool :=
  FULL_SCHEDULE_MARKERS.any (fun m => containsSub m (lowerList text))

/-- `MONTHS_MAP` lookup, applied (as in the source) to the upper-cased
matched word. -/
def monthLookup (w : List Char) : Option Nat :=
  if w = "СІЧНЯ".toList then some 1
  else if w = "ЛЮТОГО".toList then some 2
  else if w = "БЕРЕЗНЯ".toList then some 3
  else if w = "КВІТНЯ".toList then some 4
  else if w = "ТРАВНЯ".toList then some 5
  else if w = "ЧЕРВНЯ".toList then some 6
  else if w = "ЛИПНЯ".toList then some 7
  else if w = "СЕРПНЯ".toList then some 8
  else if w = "ВЕРЕСНЯ".toList then some 9
  else if w = "ЖОВТНЯ".toList then some 10
  else if w = "ЛИСТОПАДА".toList then some 11
  else if w = "ГРУДНЯ".toList then some 12
  else none

/-! ### Dates (`datetime.date`) -/

/-- A Python `datetime.date`. -/
structure PDate where
  year : Int
  month : Nat
  day : Nat
deriving DecidableEq, Repr

/-- Gregorian leap year, as `calendar`/`datetime` compute it. -/
def isLeap (y : Int) : Bool :=
  (y % 4 = 0 && y % 100 ≠ 0) || y % 400 = 0

/-- Days in a month. -/
def daysInMonth (y : Int) (m : Nat) : Nat :=
  if m = 2 then (if isLeap y then 29 else 28)
  else if m = 4 || m = 6 || m = 9 || m = 11 then 30
  else 31

/-- `datetime.date(year, month, day)`, `none` when the constructor would
raise `ValueError`. -/
def mkDate (y : Int) (m d : Nat) : Option PDate :=
  if 1 ≤ y && y ≤ 9999 && 1 ≤ m && m ≤ 12 && 1 ≤ d && d ≤ daysInMonth y m then
    some ⟨y, m, d⟩
  else none

/-- `today + datetime.timedelta(days=1)`. -/
def nextDay (d : PDate) : PDate :=
  if d.day < daysInMonth d.year d.month then ⟨d.year, d.month, d.day + 1⟩
  else if d.month < 12 then ⟨d.year, d.month + 1, 1⟩
  else ⟨d.year + 1, 1, 1⟩

/-- The year-rollover logic of `_parse_messages_to_schedule`
(lines 220-229). -/
def resolveYear (monthNum : Nat) (today : PDate) : Int :=
  let year := today.year
  if monthNum = MONTH_JANUARY && today.month = MONTH_DECEMBER then year + 1
  else if monthNum = MONTH_DECEMBER && today.month = MONTH_JANUARY then year - 1
  else year

/-- The value stored in the `"date"` field: the resolved civil day at
`datetime.time.min` in the fixed `ZoneInfo("Europe/Kyiv")` zone
(lines 232-237).  It is a function of the civil day alone. -/
structure AnchoredDate where
  civilDay : PDate
deriving DecidableEq, Repr

/-- `datetime.datetime.combine(msg_date, time.min, tzinfo=kyiv_tz).isoformat()`. -/
def kyivMidnight (d : PDate) : AnchoredDate := ⟨d⟩

/-! ### `RE_DATE` (`(\d{1,2})\s+([А-ЯІЇЄа-яіїє]+)`) -/

/-- Numeric value of one or two digit characters. -/
def digitsVal : List Char → Nat
  | [] => 0
  | c :: rest => dval c * 10 ^ rest.length + digitsVal rest

/-- Try to finish a `RE_DATE` match after the digits: `\s+` then the
greedy Cyrillic word.  Returns the matched word. -/
def dateTailAt (l : List Char) : Option (List Char) :=
  let sp := l.takeWhile isSpaceCh
  if sp = [] then none
  else
    let w := (l.dropWhile isSpaceCh).takeWhile isCyrCh
    if w = [] then none else some w

/-- Try a `RE_DATE` match starting exactly here: `\d{1,2}` (greedy, with
the regex engine's backtracking; backtracking from two digits to one can
never help because `\s+` cannot match a digit) then `\s+[cyr]+`. -/
def dateMatchAt : List Char → Option (Nat × List Char)
  | [] => none
  | c1 :: rest =>
      if isDigitCh c1 then
        match rest with
        | c2 :: rest2 =>
            if isDigitCh c2 then
              (dateTailAt rest2).map (fun w => (dval c1 * 10 + dval c2, w))
            else
              (dateTailAt rest).map (fun w => (dval c1, w))
        | [] => none
      else none

/-- `RE_DATE.search`: leftmost match, as `(day number, matched word)`. -/
def searchDate : List Char → Option (Nat × List Char)
  | [] => none
  | c :: rest =>
      match dateMatchAt (c :: rest) with
      | some x => some x
      | none => searchDate rest

/-! ### `RE_TIME_RANGE` (`(\d{1,2}:\d{2})\s*(?:до|по|-)\s*(\d{1,2}:\d{2})`) -/

/-- `_time_to_minutes`: `h * 60 + m`, no bounds check. -/
def timeToMinutes (h m : Nat) : Nat := h * 60 + m

/-- Match `\d{1,2}:\d{2}` at this position and convert via
`_time_to_minutes`.  Backtracking from two hour digits to one can never
succeed (the second digit cannot be `:`), so the cases are exclusive. -/
def parseTimeTok : List Char → Option (Nat × List Char)
  | a :: ':' :: c :: d :: rest =>
      if isDigitCh a && isDigitCh c && isDigitCh d then
        some (timeToMinutes (dval a) (dval c * 10 + dval d), rest)
      else none
  | a :: b :: ':' :: c :: d :: rest =>
      if isDigitCh a && isDigitCh b && isDigitCh c && isDigitCh d then
        some (timeToMinutes (dval a * 10 + dval b) (dval c * 10 + dval d), rest)
      else none
  | _ => none

/-- The connector alternation `до|по|-` (case-insensitive). -/
def connectorAt : List Char → Option (List Char)
  | '-' :: rest => some rest
  | c1 :: c2 :: rest =>
      if (lowerCh c1 = 'д' && lowerCh c2 = 'о') || (lowerCh c1 = 'п' && lowerCh c2 = 'о') then
        some rest
      else none
  | _ => none

/-- One `RE_TIME_RANGE` match attempt at this position, with the
`end == 0 → 1440` midnight fix of `_extract_outage_ranges` applied. -/
def rangeMatchAt (l : List Char) : Option ((Nat × Nat) × List Char) :=
  match parseTimeTok l with
  | none => none
  | some (t1, r1) =>
      match connectorAt (r1.dropWhile isSpaceCh) with
      | none => none
      | some r2 =>
          match parseTimeTok (r2.dropWhile isSpaceCh) with
          | none => none
          | some (t2, r3) =>
              some ((t1, if t2 = 0 then MINUTES_IN_DAY else t2), r3)

/-- `RE_TIME_RANGE.finditer` driver: scan left to right, resuming after
each match.  `fuel` bounds the recursion; each step consumes at least one
character, so `fuel = l.length` never runs out. -/
def extractGo (fuel : Nat) (l : List Char) : List (Nat × Nat) :=
  match fuel, l with
  | 0, _ => []
  | _, [] => []
  | f + 1, c :: rest =>
      match rangeMatchAt (c :: rest) with
      | some (p, after) => p :: extractGo f after
      | none => extractGo f rest

/-- `_extract_outage_ranges` (lines 393-402). -/
def extractOutageRanges (l : List Char) : List (Nat × Nat) :=
  extractGo l.length l

/-! ### Group markers (`RE_GROUP_STRICT` and the `re.split` pattern
`([📌🔹]\s*(?:[Чч]ерга\s*)?\d\.\d)`) -/

/-- Is this one of the marker emoji `📌`, `🔹`? -/
def isMarkerEmoji (c : Char) : Bool :=
  c = '📌' || c = '🔹'

/-- Match the marker pattern after the emoji: `\s*` then the optional
`[Чч]ерга\s*` then `\d.\d`.  When `Ч`/`ч` is present but not followed by
`ерга`, the regex backtracks to skip the optional group and then fails on
`\d` (the next character is still `Ч`), so falling back to `l1` is exact.
Returns the captured group number and the unconsumed suffix. -/
def afterEmoji (l : List Char) : Option (List Char × List Char) :=
  let l1 := l.dropWhile isSpaceCh
  let l2 :=
    match l1 with
    | c :: 'е' :: 'р' :: 'г' :: 'а' :: r2 =>
        if c = 'Ч' || c = 'ч' then r2.dropWhile isSpaceCh else l1
    | _ => l1
  match l2 with
  | d1 :: '.' :: d2 :: rest =>
      if isDigitCh d1 && isDigitCh d2 then some ([d1, '.', d2], rest) else none
  | _ => none

/-- `RE_GROUP_STRICT.search(part)`: leftmost match, returning capture
group 1 (the `d.d` group number). -/
def groupSearch : List Char → Option (List Char)
  | [] => none
  | c :: rest =>
      if isMarkerEmoji c then
        match afterEmoji rest with
        | some (g, _) => some g
        | none => groupSearch rest
      else groupSearch rest

/-- `re.split` driver with a captured pattern: gap, marker, gap, marker,
…, gap — exactly the list Python returns.  `fuel` bounds the recursion;
every step consumes at least one character. -/
def markerSplitGo (fuel : Nat) (l : List Char) (acc : List Char) : List (List Char) :=
  match fuel, l with
  | 0, _ => [acc.reverse]
  | _, [] => [acc.reverse]
  | f + 1, c :: rest =>
      if isMarkerEmoji c then
        match afterEmoji rest with
        | some (_, after) =>
            let matched := (c :: rest).take ((c :: rest).length - after.length)
            acc.reverse :: matched :: markerSplitGo f after []
        | none => markerSplitGo f rest (c :: acc)
      else markerSplitGo f rest (c :: acc)

/-- The `re.split(r"([📌🔹]\s*(?:[Чч]ерга\s*)?\d\.\d)", text)` of
`_parse_message_body` (lines 343-346). -/
def markerSplit (l : List Char) : List (List Char) :=
  markerSplitGo l.length l []

/-! ### Schedule data model

The Python nested dicts
`{group: {"today": day_dict, "tomorrow": day_dict, ...}}` are modelled by
an association list of group records.  Day dicts always carry `date`,
`status` and `slots`; the `raw_ranges` key, absent until the first
update, is modelled by a list that is empty exactly when the key would be
absent or empty. -/

/-- `API_STATUS_*` values (defined in `const.py`; their concrete string
values are opaque tokens here). -/
inductive OutStatus where
  | scheduleApplies
  | waitingForSchedule
  | emergencyShutdowns
deriving DecidableEq, Repr

/-- `API_KEY_TODAY` / `API_KEY_TOMORROW`. -/
inductive DayKey where
  | today
  | tomorrow
deriving DecidableEq, Repr

/-- One per-day dict. -/
structure DayRecord where
  date : AnchoredDate
  status : OutStatus
  slots : List Slot
  rawRanges : List (Nat × Nat)
deriving DecidableEq, Repr

/-- One per-group dict (the `updatedOn` key is not modelled). -/
structure GroupSched where
  todayRec : Option DayRecord
  tomorrowRec : Option DayRecord
deriving DecidableEq, Repr

/-- `schedule[group] = {}` for a fresh group. -/
def emptyGroup : GroupSched := ⟨none, none⟩

/-- The whole schedule dict. -/
def Schedule := List (List Char × GroupSched)
deriving DecidableEq

/-- Dict lookup. -/
def lookupG : Schedule → List Char → Option GroupSched
  | [], _ => none
  | (k, v) :: rest, g => if k = g then some v else lookupG rest g

/-- Dict write: replace in place, or append a fresh key. -/
def updateG : Schedule → List Char → GroupSched → Schedule
  | [], g, v => [(g, v)]
  | (k, w) :: rest, g, v =>
      if k = g then (k, v) :: rest else (k, w) :: updateG rest g v

/-- Day-key read on a group dict. -/
def dayGet (gs : GroupSched) : DayKey → Option DayRecord
  | .today => gs.todayRec
  | .tomorrow => gs.tomorrowRec

/-- Day-key write on a group dict. -/
def daySet (gs : GroupSched) : DayKey → DayRecord → GroupSched
  | .today, d => { gs with todayRec := some d }
  | .tomorrow, d => { gs with tomorrowRec := some d }

/-- `schedule[group][day_key]` as one read. -/
def lookupDay (sched : Schedule) (g : List Char) (key : DayKey) : Option DayRecord :=
  (lookupG sched g).bind (fun gs => dayGet gs key)

/-! ### `_parse_message_body` (lines 332-391) -/

/-- The update applied for one body segment that yielded `ranges ≠ []`
(lines 361-391): create the group / day dicts as needed, then either
replace (`is_full_update`) or extend the accumulated `raw_ranges`, and
recompute `slots` from them.  `_ranges_to_slots` sorts its argument list
in place, so the stored `raw_ranges` are the sorted accumulation. -/
def applyUpdate (full : Bool) (anchor : AnchoredDate) (key : DayKey)
    (g : List Char) (ranges : List (Nat × Nat)) (sched : Schedule) : Schedule :=
  let gs := match lookupG sched g with
    | some gs => gs
    | none => emptyGroup
  let day := match dayGet gs key with
    | some d => d
    | none => { date := anchor, status := .scheduleApplies, slots := [], rawRanges := [] }
  let rr := if full then ranges else day.rawRanges ++ ranges
  let day' := { day with rawRanges := sortRanges rr, slots := rangesToSlots rr }
  updateG sched g (daySet gs key day')

/-- The loop over the split parts (lines 347-391): a part matching
`RE_GROUP_STRICT` selects the current group; any other non-blank part is
a body for the current group, ignored when it yields no time range. -/
def processParts (full : Bool) (anchor : AnchoredDate) (key : DayKey) :
    Option (List Char) → List (List Char) → Schedule → Schedule
  | _, [], sched => sched
  | cur, part :: rest, sched =>
      match groupSearch part with
      | some g => processParts full anchor key (some g) rest sched
      | none =>
          match cur with
          | some g =>
              if stripNonempty part then
                let ranges := extractOutageRanges part
                if ranges = [] then processParts full anchor key cur rest sched
                else processParts full anchor key cur rest (applyUpdate full anchor key g ranges sched)
              else processParts full anchor key cur rest sched
          | none => processParts full anchor key cur rest sched

/-- `_parse_message_body`. -/
def parseMessageBody (text : List Char) (anchor : AnchoredDate) (key : DayKey)
    (full : Bool) (sched : Schedule) : Schedule :=
  processParts full anchor key none (markerSplit text) sched

/-! ### `_parse_messages_to_schedule` (lines 195-298) -/

/-- Outcome of the per-message screening (lines 206-248):
`skip` for any `continue`, `invalidDate` when `datetime.date(...)` would
raise `ValueError` (an exception that aborts the whole parse and is
caught in `fetch_planned_outages_data`), and otherwise the resolved date,
its Kyiv-midnight anchor and the day key. -/
inductive MsgClass where
  | skip
  | invalidDate
  | relevant (msgDate : PDate) (anchor : AnchoredDate) (key : DayKey)
deriving DecidableEq, Repr

/-- `msg_date == today` / `tomorrow` classification (lines 239-245).
`today` here is `datetime.datetime.now().date()` — the civil date of the
caller's local clock, passed in explicitly. -/
def classifyDay (msgDate today tomorrow : PDate) : Option DayKey :=
  if msgDate = today then some .today
  else if msgDate = tomorrow then some .tomorrow
  else none

/-- Lines 206-248 for one message. -/
def classifyMessage (today tomorrow : PDate) (text : List Char) : MsgClass :=
  if mentionsIgnoredCity text then .skip
  else
    match searchDate text with
    | none => .skip
    | some (dayNum, monthWord) =>
        match monthLookup (upperList monthWord) with
        | none => .skip
        | some monthNum =>
            match mkDate (resolveYear monthNum today) monthNum dayNum with
            | none => .invalidDate
            | some msgDate =>
                match classifyDay msgDate today tomorrow with
                | none => .skip
                | some key => .relevant msgDate (kyivMidnight msgDate) key

/-- One iteration of the message fold; `none` propagates the
`ValueError`. -/
def processMessage (today tomorrow : PDate) (sched : Schedule) (text : List Char) :
    Option Schedule :=
  match classifyMessage today tomorrow text with
  | .skip => some sched
  | .invalidDate => none
  | .relevant _ anchor key =>
      some (parseMessageBody text anchor key (isFullUpdate text) sched)

/-- The day dict synthesized by `_fill_missing_days` for a missing key. -/
def waitRecord (d : PDate) : DayRecord :=
  { date := kyivMidnight d, status := .waitingForSchedule, slots := [], rawRanges := [] }

/-- Missing-day backfill for one group dict. -/
def fillGroup (today tomorrow : PDate) (gs : GroupSched) : GroupSched :=
  { todayRec := some (match gs.todayRec with | some d => d | none => waitRecord today),
    tomorrowRec := some (match gs.tomorrowRec with | some d => d | none => waitRecord tomorrow) }

/-- `_fill_missing_days` (lines 300-330): every group already in the
schedule gets both day keys; existing day dicts are untouched. -/
def fillMissingDays (sched : Schedule) (today tomorrow : PDate) : Schedule :=
  sched.map (fun p => (p.1, fillGroup today tomorrow p.2))

/-- `_parse_messages_to_schedule`: fold the chronologically ordered
messages, then backfill missing days.  `today` is the caller-local
`datetime.datetime.now().date()`; the publication timestamps only feed
the unmodelled `updatedOn` field and are ignored. -/
def parseMessagesToSchedule (today : PDate) (msgs : List (List Char × Option (List Char))) :
    Option Schedule :=
  let tomorrow := nextDay today
  (msgs.foldlM (fun sched msg => processMessage today tomorrow sched msg.1) ([] : Schedule)).map
    (fun sched => fillMissingDays sched today tomorrow)

/-! ### `_inject_emergency_status` and `fetch_planned_outages_data`
(lines 96-153) -/

/-- The per-day copy of lines 143-153: when both sides carry the day and
the Yasno status is the emergency value, only the status field of the CEK
day dict is overwritten. -/
def injectDay (yd cd : Option DayRecord) : Option DayRecord :=
  match yd, cd with
  | some y, some c =>
      if y.status = OutStatus.emergencyShutdowns then
        some { c with status := OutStatus.emergencyShutdowns }
      else some c
  | _, _ => cd

/-- `_inject_emergency_status` (lines 138-153), called only when `group`
is present in both schedules; the Yasno schedule is only read. -/
def injectEmergencyStatus (g : List Char) (yasno cek : Schedule) : Schedule :=
  match lookupG yasno g, lookupG cek g with
  | some yg, some cg =>
      updateG cek g
        { todayRec := injectDay yg.todayRec cg.todayRec,
          tomorrowRec := injectDay yg.tomorrowRec cg.tomorrowRec }
  | _, _ => cek

/-- The combine logic of `fetch_planned_outages_data` (lines 118-136).
Each fetch is wrapped in its own `try/except`, so a failed source arrives
here as `none`; Python dict truthiness makes an empty schedule falsy.
The result is the schedule delivered to the caller, `none` when both
sources failed and nothing is delivered. -/
def combineSources (group : List Char) (yasno cek : Option Schedule) : Option Schedule :=
  match cek with
  | some cekS =>
      if (lookupG cekS group).isSome then
        some (match yasno with
          | some yS =>
              if (lookupG yS group).isSome then injectEmergencyStatus group yS cekS
              else cekS
          | none => cekS)
      else
        match yasno with
        | some yS => if yS = ([] : Schedule) then none else some yS
        | none => none
  | none =>
      match yasno with
      | some yS => if yS = ([] : Schedule) then none else some yS
      | none => none

/-! ### Spec-side comparison definitions

These three definitions follow the specification's words, not the code;
each claim's theorem compares the code embedding against them. -/

/-- Spec 4.2 output classification: `Today` iff the resolved date equals
now's civil date in the publication timezone, `Tomorrow` iff it equals
the next civil date in that timezone. -/
def specClassifyDay (msgDate nowKyivDate : PDate) : Option DayKey :=
  if msgDate = nowKyivDate then some .today
  else if msgDate = nextDay nowKyivDate then some .tomorrow
  else none

/-- Spec 4.2 date-extraction contract: the first occurrence in the text
of a day-number immediately followed by a recognized month name
(case-insensitive, from the fixed month vocabulary), as
`(day, month number)`. -/
def specFirstDayMonth : List Char → Option (Nat × Nat)
  | [] => none
  | c :: rest =>
      match dateMatchAt (c :: rest) with
      | some (d, w) =>
          match monthLookup (upperList w) with
          | some m => some (d, m)
          | none => specFirstDayMonth rest
      | none => specFirstDayMonth rest

/-- All time ranges a message carries for group `g`: the concatenation of
the extracted ranges of every body segment standing under a marker for
`g` (the "ranges extracted from the message" of claim C2's wording). -/
def msgRangesGo (g : List Char) : Option (List Char) → List (List Char) → List (Nat × Nat)
  | _, [] => []
  | cur, part :: rest =>
      match groupSearch part with
      | some g2 => msgRangesGo g (some g2) rest
      | none =>
          (if cur = some g then extractOutageRanges part else []) ++ msgRangesGo g cur rest

/-- See `msgRangesGo`. -/
def messageRangesFor (g : List Char) (text : List Char) : List (Nat × Nat) :=
  msgRangesGo g none (markerSplit text)

/-! ### Concrete fixtures for the witness instances -/

/-- A Yasno day record carrying the emergency status. -/
def ydEx : DayRecord := ⟨kyivMidnight ⟨2025, 7, 1⟩, .emergencyShutdowns, [], []⟩

/-- A CEK day record with computed slots. -/
def cdEx : DayRecord :=
  ⟨kyivMidnight ⟨2025, 7, 1⟩, .scheduleApplies, rangesToSlots [(360, 660)], [(360, 660)]⟩

/-- A one-group Yasno schedule. -/
def yasnoEx : Schedule := [("1.1".toList, ⟨some ydEx, none⟩)]

/-- A one-group CEK schedule. -/
def cekEx : Schedule := [("1.1".toList, ⟨some cdEx, none⟩)]

/-! ## Lemmas about the interval merger -/

theorem mergeLoop_head (l : List (Nat × Nat)) :
    ∀ cs ce, ∃ e tail, mergeLoop cs ce l = (cs, e) :: tail ∧ ce ≤ e := by
  induction l with
  | nil => intro cs ce; exact ⟨ce, [], rfl, le_refl ce⟩
  | cons p rest ih =>
      intro cs ce
      obtain ⟨ns, ne⟩ := p
      by_cases h : ns ≤ ce
      · obtain ⟨e, tail, heq, hle⟩ := ih cs (max ce ne)
        exact ⟨e, tail, by simp [mergeLoop, h, heq], le_trans (le_max_left ce ne) hle⟩
      · exact ⟨ce, mergeLoop ns ne rest, by simp [mergeLoop, h], le_refl ce⟩

theorem mergeLoop_chained (l : List (Nat × Nat)) :
    ∀ cs ce, chained (mergeLoop cs ce l) := by
  induction l with
  | nil => intro cs ce; simp [mergeLoop, chained]
  | cons p rest ih =>
      intro cs ce
      obtain ⟨ns, ne⟩ := p
      by_cases h : ns ≤ ce
      · simpa [mergeLoop, h] using ih cs (max ce ne)
      · obtain ⟨e, tail, heq, _⟩ := mergeLoop_head rest ns ne
        have hch := ih ns ne
        simp only [mergeLoop, if_neg h, heq]
        simp only [heq] at hch
        exact ⟨by omega, hch⟩

theorem mergeLoop_sorted (l : List (Nat × Nat)) :
    ∀ cs ce, List.Sorted lexLe ((cs, ce) :: l) →
      List.Sorted lexLe (mergeLoop cs ce l) := by
  induction l with
  | nil => intro cs ce _; simp [mergeLoop]
  | cons p rest ih =>
      intro cs ce hs
      obtain ⟨ns, ne⟩ := p
      rw [List.sorted_cons] at hs
      obtain ⟨hall, hs2⟩ := hs
      by_cases h : ns ≤ ce
      · simp only [mergeLoop, if_pos h]
        apply ih
        rw [List.sorted_cons]
        refine ⟨?_, hs2.of_cons⟩
        intro b hb
        have h1 := hall b (List.mem_cons_of_mem _ hb)
        have h2 := List.rel_of_sorted_cons hs2 b hb
        have h3 := hall (ns, ne) (List.mem_cons_self _ _)
        unfold lexLe at h1 h2 h3 ⊢
        omega
      · simp only [mergeLoop, if_neg h]
        obtain ⟨e, tail, heq, hle⟩ := mergeLoop_head rest ns ne
        have hsm := ih ns ne hs2
        rw [List.sorted_cons]
        refine ⟨?_, hsm⟩
        intro b hb
        have h3 := hall (ns, ne) (List.mem_cons_self _ _)
        rw [heq] at hb hsm
        rcases List.mem_cons.mp hb with hb1 | hb2
        · subst hb1
          unfold lexLe at h3 ⊢
          omega
        · have h4 := List.rel_of_sorted_cons hsm b hb2
          unfold lexLe at h3 h4 ⊢
          omega

theorem mergeLoop_wf (l : List (Nat × Nat)) :
    ∀ cs ce t, t ≤ cs → cs ≤ ce → ce ≤ MINUTES_IN_DAY →
      (∀ p ∈ l, p.1 ≤ p.2 ∧ p.2 ≤ MINUTES_IN_DAY) →
      wfM t (mergeLoop cs ce l) := by
  induction l with
  | nil =>
      intro cs ce t h1 h2 h3 _
      exact ⟨h1, h2, h3, h3⟩
  | cons p rest ih =>
      intro cs ce t h1 h2 h3 hb
      obtain ⟨ns, ne⟩ := p
      have hbh := hb (ns, ne) (List.mem_cons_self _ _)
      have hbr : ∀ p ∈ rest, p.1 ≤ p.2 ∧ p.2 ≤ MINUTES_IN_DAY :=
        fun p hp => hb p (List.mem_cons_of_mem _ hp)
      by_cases h : ns ≤ ce
      · simp only [mergeLoop, if_pos h]
        exact ih cs (max ce ne) t h1 (le_trans h2 (le_max_left _ _))
          (by simp at hbh ⊢; omega) hbr
      · simp only [mergeLoop, if_neg h]
        refine ⟨h1, h2, h3, ?_⟩
        exact ih ns ne ce (by omega) (by simpa using hbh.1) (by simpa using hbh.2) hbr

theorem fillSlots_tiles (M : List (Nat × Nat)) :
    ∀ t, wfM t M → tilesFromB t (fillSlots t M) = true := by
  induction M with
  | nil =>
      intro t ht
      simp only [wfM] at ht
      by_cases h : t < MINUTES_IN_DAY
      · simp [fillSlots, tilesFromB, h, Nat.le_of_lt h]
      · have hteq : t = MINUTES_IN_DAY := by omega
        simp [fillSlots, tilesFromB, hteq]
  | cons p rest ih =>
      intro t ht
      obtain ⟨s, e⟩ := p
      obtain ⟨h1, h2, h3, h4⟩ := ht
      by_cases h : t < s
      · simp [fillSlots, tilesFromB, h, Nat.le_of_lt h, h2, ih e h4]
      · have hts : t = s := by omega
        subst hts
        simp [fillSlots, tilesFromB, h, h2, ih e h4]

theorem tilesFromB_le (l : List Slot) :
    ∀ t, tilesFromB t l = true → t ≤ MINUTES_IN_DAY := by
  induction l with
  | nil => intro t ht; simp only [tilesFromB, beq_iff_eq] at ht; omega
  | cons s rest ih =>
      intro t ht
      simp only [tilesFromB, Bool.and_eq_true, beq_iff_eq, decide_eq_true_eq] at ht
      obtain ⟨⟨h1, h2⟩, h3⟩ := ht
      have := ih s.stop h3
      omega

theorem tilesFromB_sum (l : List Slot) :
    ∀ t, tilesFromB t l = true → slotSum l + t = MINUTES_IN_DAY := by
  induction l with
  | nil =>
      intro t ht
      simp only [tilesFromB, beq_iff_eq] at ht
      simp [slotSum, ht]
  | cons s rest ih =>
      intro t ht
      simp only [tilesFromB, Bool.and_eq_true, beq_iff_eq, decide_eq_true_eq] at ht
      obtain ⟨⟨h1, h2⟩, h3⟩ := ht
      have hsum := ih s.stop h3
      simp only [slotSum]
      omega

theorem definiteRangesOf_fillSlots (M : List (Nat × Nat)) :
    ∀ t, definiteRangesOf (fillSlots t M) = M := by
  induction M with
  | nil =>
      intro t
      by_cases h : t < MINUTES_IN_DAY <;>
        simp [fillSlots, definiteRangesOf, h]
  | cons p rest ih =>
      intro t
      obtain ⟨s, e⟩ := p
      by_cases h : t < s <;>
        simp [fillSlots, definiteRangesOf, h] <;>
        simpa [definiteRangesOf] using ih e

theorem mergeLoop_of_chained (M : List (Nat × Nat)) :
    ∀ cs ce, chained ((cs, ce) :: M) → mergeLoop cs ce M = (cs, ce) :: M := by
  induction M with
  | nil => intro cs ce _; rfl
  | cons p rest ih =>
      intro cs ce hch
      obtain ⟨ns, ne⟩ := p
      obtain ⟨hlt, hch2⟩ := hch
      have h : ¬ ns ≤ ce := by omega
      simp only [mergeLoop, if_neg h]
      rw [ih ns ne hch2]

theorem sortRanges_of_sorted {M : List (Nat × Nat)} (h : List.Sorted lexLe M) :
    sortRanges M = M :=
  List.eq_of_perm_of_sorted (List.perm_insertionSort lexLe M)
    (List.sorted_insertionSort lexLe M) h

theorem sortRanges_perm (l : List (Nat × Nat)) : List.Perm (sortRanges l) l :=
  List.perm_insertionSort lexLe l

/-- `_ranges_to_slots` depends only on the multiset of input ranges
(it sorts before doing anything else, and the sorted permutation is
unique for the total antisymmetric tuple order). -/
theorem rangesToSlots_perm {l l' : List (Nat × Nat)} (h : List.Perm l l') :
    rangesToSlots l = rangesToSlots l' := by
  have hsort : sortRanges l = sortRanges l' :=
    List.eq_of_perm_of_sorted ((sortRanges_perm l).trans (h.trans (sortRanges_perm l').symm))
      (List.sorted_insertionSort lexLe l) (List.sorted_insertionSort lexLe l')
  cases l with
  | nil =>
      cases l' with
      | nil => rfl
      | cons b bs => exact absurd h.symm (by simp)
  | cons a as =>
      cases l' with
      | nil => exact absurd h (by simp)
      | cons b bs => simp only [rangesToSlots, hsort]

/-! ## Claim C1 — `_ranges_to_slots` tiles `[0, 1440)` -/

/-- C1 (amended): for every input list of time ranges in which each range
satisfies `start ≤ end ≤ 1440` — in particular for arbitrarily
overlapping or duplicated in-bounds ranges — the slot list returned by
`_ranges_to_slots` exactly tiles `[0, 1440)`: `tilesFromB 0` asserts the
slots are sorted, each slot's start equals the previous slot's end, the
first slot starts at 0 and the last ends at 1440 with no overlap and no
gap, and the sum of slot durations is 1440. -/
theorem c1_ranges_to_slots_tiles (ranges : List (Nat × Nat))
    (hb : ∀ p ∈ ranges, p.1 ≤ p.2 ∧ p.2 ≤ MINUTES_IN_DAY) :
    tilesFromB 0 (rangesToSlots ranges) = true ∧
      slotSum (rangesToSlots ranges) = MINUTES_IN_DAY := by
  cases ranges with
  | nil => exact ⟨by decide, by decide⟩
  | cons r rs =>
      have hperm := sortRanges_perm (r :: rs)
      cases hsr : sortRanges (r :: rs) with
      | nil =>
          rw [hsr] at hperm
          exact absurd hperm.symm (by simp)
      | cons p rest =>
          obtain ⟨s, e⟩ := p
          rw [hsr] at hperm
          have hmem : ∀ q ∈ (s, e) :: rest, q.1 ≤ q.2 ∧ q.2 ≤ MINUTES_IN_DAY :=
            fun q hq => hb q (hperm.mem_iff.mp hq)
          have hse := hmem (s, e) (List.mem_cons_self _ _)
          have hwf := mergeLoop_wf rest s e 0 (Nat.zero_le s) hse.1 hse.2
            (fun q hq => hmem q (List.mem_cons_of_mem _ hq))
          have htile := fillSlots_tiles _ 0 hwf
          have hsum := tilesFromB_sum _ 0 htile
          have hpt : rangesToSlots (r :: rs) = fillSlots 0 (mergeLoop s e rest) := by
            simp only [rangesToSlots]
            rw [hsr]
          rw [hpt]
          exact ⟨htile, by omega⟩

/-- Witness for C1's theorem at the spec's end-to-end input. -/
theorem c1_ranges_to_slots_tiles_witness :
    tilesFromB 0 (rangesToSlots [(360, 660), (840, 960)]) = true ∧
      slotSum (rangesToSlots [(360, 660), (840, 960)]) = MINUTES_IN_DAY :=
  c1_ranges_to_slots_tiles [(360, 660), (840, 960)] (by decide)

/-- C1 as stated is false: the range `(0, 2000)` — producible by
`_extract_outage_ranges` from the in-pattern text `"00:00 до 33:20"` —
yields a slot list whose single slot ends at minute 2000, so it does not
tile `[0, 1440)` and its duration sum is not 1440. -/
theorem c1_ranges_to_slots_cex :
    extractOutageRanges ("00:00 до 33:20".toList) = [(0, 2000)] ∧
      rangesToSlots [(0, 2000)] = [⟨0, 2000, SlotKind.definite⟩] ∧
      tilesFromB 0 (rangesToSlots [(0, 2000)]) = false ∧
      slotSum (rangesToSlots [(0, 2000)]) ≠ MINUTES_IN_DAY := by
  refine ⟨by decide, by decide, by decide, by decide⟩

/-! ## Claim C9 — `_ranges_to_slots` is idempotent -/

/-- C9: feeding the `(start, end)` pairs of the `Definite` slots of a
`_ranges_to_slots` output back through `_ranges_to_slots` reproduces
exactly the same slot list, for every input range list. -/
theorem c9_ranges_to_slots_idempotent (ranges : List (Nat × Nat)) :
    rangesToSlots (definiteRangesOf (rangesToSlots ranges)) = rangesToSlots ranges := by
  cases ranges with
  | nil => decide
  | cons r rs =>
      have hperm := sortRanges_perm (r :: rs)
      cases hsr : sortRanges (r :: rs) with
      | nil =>
          rw [hsr] at hperm
          exact absurd hperm.symm (by simp)
      | cons p rest =>
          obtain ⟨s, e⟩ := p
          have hfill : rangesToSlots (r :: rs) = fillSlots 0 (mergeLoop s e rest) := by
            simp only [rangesToSlots]
            rw [hsr]
          have hsorted : List.Sorted lexLe (mergeLoop s e rest) := by
            apply mergeLoop_sorted
            rw [← hsr]
            exact List.sorted_insertionSort lexLe (r :: rs)
          have hchain : chained (mergeLoop s e rest) := mergeLoop_chained rest s e
          obtain ⟨e0, tail, hM, _⟩ := mergeLoop_head rest s e
          rw [hfill, definiteRangesOf_fillSlots]
          rw [hM]
          have hss : sortRanges ((s, e0) :: tail) = (s, e0) :: tail :=
            sortRanges_of_sorted (hM ▸ hsorted)
          simp only [rangesToSlots]
          rw [hss]
          show fillSlots 0 (mergeLoop s e0 tail) = fillSlots 0 ((s, e0) :: tail)
          rw [mergeLoop_of_chained tail s e0 (hM ▸ hchain)]

/-! ## Lemmas about the schedule dictionaries -/

theorem lookupG_updateG_self (s : Schedule) (g : List Char) (v : GroupSched) :
    lookupG (updateG s g v) g = some v := by
  induction s with
  | nil => simp [updateG, lookupG]
  | cons p rest ih =>
      obtain ⟨k, w⟩ := p
      by_cases h : k = g
      · simp [updateG, lookupG, h]
      · simp [updateG, lookupG, h, ih]

theorem lookupG_updateG_ne (s : Schedule) (g g' : List Char) (v : GroupSched)
    (h : g' ≠ g) : lookupG (updateG s g v) g' = lookupG s g' := by
  induction s with
  | nil => simp [updateG, lookupG, Ne.symm h]
  | cons p rest ih =>
      obtain ⟨k, w⟩ := p
      by_cases hk : k = g
      · subst hk
        have hne : ¬ k = g' := fun he => h he.symm
        simp [updateG, lookupG, hne]
      · simp [updateG, lookupG, hk, ih]

theorem dayGet_daySet_self (gs : GroupSched) (k : DayKey) (d : DayRecord) :
    dayGet (daySet gs k d) k = some d := by
  cases k <;> rfl

/-- Unfolding `applyUpdate` when the group and day both exist. -/
theorem applyUpdate_eq_existing (full : Bool) (a : AnchoredDate) (key : DayKey)
    (g : List Char) (ranges : List (Nat × Nat)) (sched : Schedule)
    (gs : GroupSched) (d0 : DayRecord)
    (hl : lookupG sched g = some gs) (hd : dayGet gs key = some d0) :
    applyUpdate full a key g ranges sched =
      updateG sched g (daySet gs key
        { d0 with
            rawRanges := sortRanges (if full then ranges else d0.rawRanges ++ ranges),
            slots := rangesToSlots (if full then ranges else d0.rawRanges ++ ranges) }) := by
  unfold applyUpdate
  simp only [hl, hd]

/-- Unfolding `applyUpdate` when the group exists but the day does not. -/
theorem applyUpdate_eq_newday (full : Bool) (a : AnchoredDate) (key : DayKey)
    (g : List Char) (ranges : List (Nat × Nat)) (sched : Schedule)
    (gs : GroupSched)
    (hl : lookupG sched g = some gs) (hd : dayGet gs key = none) :
    applyUpdate full a key g ranges sched =
      updateG sched g (daySet gs key
        { date := a, status := OutStatus.scheduleApplies,
          slots := rangesToSlots (if full then ranges else [] ++ ranges),
          rawRanges := sortRanges (if full then ranges else [] ++ ranges) }) := by
  unfold applyUpdate
  simp only [hl, hd]

/-- Unfolding `applyUpdate` for a fresh group. -/
theorem applyUpdate_eq_newgroup (full : Bool) (a : AnchoredDate) (key : DayKey)
    (g : List Char) (ranges : List (Nat × Nat)) (sched : Schedule)
    (hl : lookupG sched g = none) :
    applyUpdate full a key g ranges sched =
      updateG sched g (daySet emptyGroup key
        { date := a, status := OutStatus.scheduleApplies,
          slots := rangesToSlots (if full then ranges else [] ++ ranges),
          rawRanges := sortRanges (if full then ranges else [] ++ ranges) }) := by
  unfold applyUpdate
  have hde : dayGet emptyGroup key = none := by cases key <;> rfl
  simp only [hl, hde]

/-- What one body-segment update stores for its own group and day:
the (in-place sorted) accumulated raw ranges and the slots recomputed
from the accumulation. -/
theorem lookupDay_applyUpdate (full : Bool) (a : AnchoredDate) (key : DayKey)
    (g : List Char) (ranges : List (Nat × Nat)) (sched : Schedule) :
    ∃ gs' d old,
      lookupG (applyUpdate full a key g ranges sched) g = some gs' ∧
      dayGet gs' key = some d ∧
      d.rawRanges = sortRanges (if full then ranges else old ++ ranges) ∧
      d.slots = rangesToSlots (if full then ranges else old ++ ranges) ∧
      ((∃ d0, lookupDay sched g key = some d0 ∧ old = d0.rawRanges) ∨
        (lookupDay sched g key = none ∧ old = [])) := by
  cases hl : lookupG sched g with
  | none =>
      rw [applyUpdate_eq_newgroup full a key g ranges sched hl]
      exact ⟨_, _, [], lookupG_updateG_self _ _ _, dayGet_daySet_self _ _ _, rfl, rfl,
        Or.inr ⟨by simp [lookupDay, hl], rfl⟩⟩
  | some gs =>
      cases hd : dayGet gs key with
      | none =>
          rw [applyUpdate_eq_newday full a key g ranges sched gs hl hd]
          exact ⟨_, _, [], lookupG_updateG_self _ _ _, dayGet_daySet_self _ _ _, rfl, rfl,
            Or.inr ⟨by simp [lookupDay, hl, hd], rfl⟩⟩
      | some d0 =>
          rw [applyUpdate_eq_existing full a key g ranges sched gs d0 hl hd]
          exact ⟨_, _, d0.rawRanges, lookupG_updateG_self _ _ _, dayGet_daySet_self _ _ _,
            rfl, rfl, Or.inl ⟨d0, by simp [lookupDay, hl, hd], rfl⟩⟩

/-! ## Claim C2 — full update replaces, patch appends -/

/-- C2 (amended): per body segment, a full-update message replaces the
accumulated raw ranges of the segment's group and day with that
segment's ranges — so, for a group carried by exactly one segment, with
the message's ranges for that group — while a patch message appends to
the accumulation without removing anything; consequently a full-update
message followed by a patch message for the same group and day yields
slots equal to merging the union of both messages' range sets.
`_ranges_to_slots` sorts the stored list in place, hence the
`sortRanges` images of the stored accumulations. -/
theorem c2_full_then_patch
    (sched : Schedule) (t1 t2 : List Char) (a1 a2 : AnchoredDate) (key : DayKey)
    (g p0 m1 b1 q0 n1 c1 : List Char) (r1 r2 : List (Nat × Nat))
    (hs1 : markerSplit t1 = [p0, m1, b1]) (hp0 : groupSearch p0 = none)
    (hm1 : groupSearch m1 = some g) (hb1g : groupSearch b1 = none)
    (hb1s : stripNonempty b1 = true) (hr1 : extractOutageRanges b1 = r1) (hr1n : r1 ≠ [])
    (hs2 : markerSplit t2 = [q0, n1, c1]) (hq0 : groupSearch q0 = none)
    (hn1 : groupSearch n1 = some g) (hc1g : groupSearch c1 = none)
    (hc1s : stripNonempty c1 = true) (hr2 : extractOutageRanges c1 = r2) (hr2n : r2 ≠ []) :
    ∃ d1 d2,
      lookupDay (parseMessageBody t1 a1 key true sched) g key = some d1 ∧
      d1.rawRanges = sortRanges r1 ∧
      d1.slots = rangesToSlots r1 ∧
      lookupDay (parseMessageBody t2 a2 key false (parseMessageBody t1 a1 key true sched))
          g key = some d2 ∧
      d2.rawRanges = sortRanges (sortRanges r1 ++ r2) ∧
      d2.slots = rangesToSlots (r1 ++ r2) := by
  have hb1e : parseMessageBody t1 a1 key true sched = applyUpdate true a1 key g r1 sched := by
    rw [parseMessageBody, hs1]
    simp [processParts, hp0, hm1, hb1g, hb1s, hr1, hr1n]
  obtain ⟨gs1, d1, old1, hg1, hd1, hraw1, hslots1, _⟩ :=
    lookupDay_applyUpdate true a1 key g r1 sched
  simp at hraw1 hslots1
  have hb2e : parseMessageBody t2 a2 key false (applyUpdate true a1 key g r1 sched) =
      applyUpdate false a2 key g r2 (applyUpdate true a1 key g r1 sched) := by
    rw [parseMessageBody, hs2]
    simp [processParts, hq0, hn1, hc1g, hc1s, hr2, hr2n]
  rw [applyUpdate_eq_existing false a2 key g r2 _ gs1 d1 hg1 hd1] at hb2e
  refine ⟨d1,
    { d1 with
        rawRanges := sortRanges (if false = true then r2 else d1.rawRanges ++ r2),
        slots := rangesToSlots (if false = true then r2 else d1.rawRanges ++ r2) },
    ?_, hraw1, hslots1, ?_, ?_, ?_⟩
  · rw [hb1e]
    simp [lookupDay, hg1, hd1]
  · rw [hb1e, hb2e]
    simp [lookupDay, lookupG_updateG_self, dayGet_daySet_self]
  · simp [hraw1]
  · simp only [Bool.false_eq_true, if_false, hraw1]
    exact rangesToSlots_perm ((sortRanges_perm r1).append (List.Perm.refl r2))

/-- Witness for C2's theorem: the spec's own end-to-end feed — after the
full update and the patch, the slots are the merge of the union of both
messages' ranges. -/
theorem c2_full_then_patch_witness :
    (lookupDay (parseMessageBody ("📌 1.1 14:00 - 16:00".toList)
          (kyivMidnight ⟨2025, 7, 1⟩) DayKey.today false
          (parseMessageBody ("📌 1.1 06:00 - 11:00".toList)
            (kyivMidnight ⟨2025, 7, 1⟩) DayKey.today true [])) ("1.1".toList)
        DayKey.today).map DayRecord.rawRanges
        = some (sortRanges (sortRanges [(360, 660)] ++ [(840, 960)])) ∧
      (lookupDay (parseMessageBody ("📌 1.1 14:00 - 16:00".toList)
          (kyivMidnight ⟨2025, 7, 1⟩) DayKey.today false
          (parseMessageBody ("📌 1.1 06:00 - 11:00".toList)
            (kyivMidnight ⟨2025, 7, 1⟩) DayKey.today true [])) ("1.1".toList)
        DayKey.today).map DayRecord.slots
        = some (rangesToSlots ([(360, 660)] ++ [(840, 960)])) := by
  obtain ⟨d1, d2, h1, h2, h3, h4, h5, h6⟩ :=
    c2_full_then_patch [] ("📌 1.1 06:00 - 11:00".toList) ("📌 1.1 14:00 - 16:00".toList)
      (kyivMidnight ⟨2025, 7, 1⟩) (kyivMidnight ⟨2025, 7, 1⟩) DayKey.today
      ("1.1".toList) [] ("📌 1.1".toList) (" 06:00 - 11:00".toList)
      [] ("📌 1.1".toList) (" 14:00 - 16:00".toList)
      [(360, 660)] [(840, 960)]
      (by decide) (by decide) (by decide) (by decide) (by decide) (by decide) (by decide)
      (by decide) (by decide) (by decide) (by decide) (by decide) (by decide) (by decide)
  rw [h4]
  exact ⟨by rw [Option.map_some']; rw [h5], by rw [Option.map_some']; rw [h6]⟩

/-- C2 as stated is false: in a full-update message that carries the same
group in two segments, the stored raw ranges are only the second
segment's ranges, not "the ranges extracted from the message": the range
`(360, 420)` extracted from the message is absent from the stored
accumulation. -/
theorem c2_full_replaces_cex :
    (lookupDay (parseMessageBody ("📌 1.1 06:00 - 07:00 📌 1.1 08:00 - 09:00".toList)
          (kyivMidnight ⟨2025, 7, 1⟩) DayKey.today true []) ("1.1".toList) DayKey.today).map
        DayRecord.rawRanges = some [(480, 540)] ∧
      messageRangesFor ("1.1".toList) ("📌 1.1 06:00 - 07:00 📌 1.1 08:00 - 09:00".toList)
        = [(360, 420), (480, 540)] ∧
      (360, 420) ∉ ([(480, 540)] : List (Nat × Nat)) := by
  refine ⟨by decide, by decide, by decide⟩

/-! ## Claim C10 — replacement is per segment inside one full update -/

/-- C10: within a single full-update message, replacement of the
accumulated raw ranges is applied per group-marker segment: when the
same group appears in two segments, each later segment with at least one
range overwrites the earlier one, so the stored raw ranges equal exactly
(the sorted image of) the last non-empty segment's ranges and the slots
are computed from them alone — not from the union `r1 ++ r2` of all the
message's ranges for the group. -/
theorem c10_full_update_per_segment
    (sched : Schedule) (t : List Char) (a : AnchoredDate) (key : DayKey)
    (g p0 m1 b1 m2 b2 : List Char) (r1 r2 : List (Nat × Nat))
    (hs : markerSplit t = [p0, m1, b1, m2, b2]) (hp0 : groupSearch p0 = none)
    (hm1 : groupSearch m1 = some g) (hb1g : groupSearch b1 = none)
    (hb1s : stripNonempty b1 = true) (hr1 : extractOutageRanges b1 = r1) (hr1n : r1 ≠ [])
    (hm2 : groupSearch m2 = some g) (hb2g : groupSearch b2 = none)
    (hb2s : stripNonempty b2 = true) (hr2 : extractOutageRanges b2 = r2) (hr2n : r2 ≠ []) :
    ∃ d,
      lookupDay (parseMessageBody t a key true sched) g key = some d ∧
      d.rawRanges = sortRanges r2 ∧
      d.slots = rangesToSlots r2 ∧
      messageRangesFor g t = r1 ++ r2 := by
  have he : parseMessageBody t a key true sched =
      applyUpdate true a key g r2 (applyUpdate true a key g r1 sched) := by
    rw [parseMessageBody, hs]
    simp [processParts, hp0, hm1, hb1g, hb1s, hr1, hr1n, hm2, hb2g, hb2s, hr2, hr2n]
  obtain ⟨gs', d, old, hg, hd, hraw, hslots, _⟩ :=
    lookupDay_applyUpdate true a key g r2 (applyUpdate true a key g r1 sched)
  simp at hraw hslots
  refine ⟨d, ?_, hraw, hslots, ?_⟩
  · rw [he]
    simp [lookupDay, hg, hd]
  · rw [messageRangesFor, hs]
    simp [msgRangesGo, hp0, hm1, hb1g, hm2, hb2g, hr1, hr2]

/-! ## Lemmas about dates and the per-message screening -/

theorem nextDay_ne (d : PDate) : nextDay d ≠ d := by
  unfold nextDay
  split_ifs <;> intro he
  · have h2 : d.day + 1 = d.day := congrArg PDate.day he
    omega
  · have h2 : d.month + 1 = d.month := congrArg PDate.month he
    omega
  · have h2 : d.year + 1 = d.year := congrArg PDate.year he
    omega

theorem resolveYear_eq (m : Nat) (today : PDate) :
    resolveYear m today =
      if m = MONTH_JANUARY ∧ today.month = MONTH_DECEMBER then today.year + 1
      else if m = MONTH_DECEMBER ∧ today.month = MONTH_JANUARY then today.year - 1
      else today.year := by
  unfold resolveYear
  simp only [Bool.and_eq_true, decide_eq_true_eq]

/-- When `classifyMessage` reports a relevant message, the resolved date
comes from the first `RE_DATE` occurrence, the year-rollover rule, and
`datetime.date`; the anchor is the Kyiv midnight of that date; and the
day key comes from `classifyDay` against the caller-local dates. -/
theorem classifyMessage_relevant (today tomorrow : PDate) (text : List Char)
    (d : PDate) (a : AnchoredDate) (key : DayKey)
    (h : classifyMessage today tomorrow text = MsgClass.relevant d a key) :
    ∃ dn w m, searchDate text = some (dn, w) ∧
      monthLookup (upperList w) = some m ∧
      mkDate (resolveYear m today) m dn = some d ∧
      a = kyivMidnight d ∧
      classifyDay d today tomorrow = some key := by
  unfold classifyMessage at h
  split at h
  · cases h
  · split at h
    · cases h
    · rename_i dn w hs
      split at h
      · cases h
      · rename_i m hm
        split at h
        · cases h
        · rename_i msgDate hmk
          split at h
          · cases h
          · rename_i key' hcl
            injection h with h1 h2 h3
            subst h1
            subst h2
            subst h3
            exact ⟨dn, w, m, hs, hm, hmk, rfl, hcl⟩

/-! ## Claim C3 — Kyiv anchoring, caller-local day classification -/

/-- C3 (amended): a message accepted as relevant has its stored date
anchored at the start of the resolved civil day in the fixed
`Europe/Kyiv` publication timezone (a function of the resolved day
alone), but the Today/Tomorrow classification compares the resolved date
with the civil date of the caller's local clock
(`datetime.datetime.now().date()`, passed here as `today`), not with
now's civil date in the publication timezone; all other dates are
dropped. -/
theorem c3_kyiv_anchor_local_classify (today : PDate) (text : List Char)
    (d : PDate) (a : AnchoredDate) (key : DayKey)
    (h : classifyMessage today (nextDay today) text = MsgClass.relevant d a key) :
    a = kyivMidnight d ∧ (key = DayKey.today ↔ d = today) ∧
      (key = DayKey.tomorrow ↔ d = nextDay today) := by
  have hne : nextDay today ≠ today := nextDay_ne today
  obtain ⟨dn, w, m, _, _, _, ha, hcl⟩ :=
    classifyMessage_relevant today (nextDay today) text d a key h
  refine ⟨ha, ?_, ?_⟩ <;> unfold classifyDay at hcl
  · by_cases he1 : d = today
    · rw [if_pos he1] at hcl
      injection hcl with hk
      simp [← hk, he1]
    · rw [if_neg he1] at hcl
      by_cases he2 : d = nextDay today
      · rw [if_pos he2] at hcl
        injection hcl with hk
        simp [← hk, he1]
      · rw [if_neg he2] at hcl
        cases hcl
  · by_cases he1 : d = today
    · rw [if_pos he1] at hcl
      injection hcl with hk
      subst he1
      simp [← hk]
      exact fun hcon => hne hcon.symm
    · rw [if_neg he1] at hcl
      by_cases he2 : d = nextDay today
      · rw [if_pos he2] at hcl
        injection hcl with hk
        simp [← hk, he2]
      · rw [if_neg he2] at hcl
        cases hcl

/-- Witness for C3's theorem: `"1 ЛИПНЯ"` with local date 2025-07-01. -/
theorem c3_kyiv_anchor_local_classify_witness :
    kyivMidnight ⟨2025, 7, 1⟩ = kyivMidnight ⟨2025, 7, 1⟩ ∧
      (DayKey.today = DayKey.today ↔ (⟨2025, 7, 1⟩ : PDate) = ⟨2025, 7, 1⟩) ∧
      (DayKey.today = DayKey.tomorrow ↔ (⟨2025, 7, 1⟩ : PDate) = nextDay ⟨2025, 7, 1⟩) :=
  c3_kyiv_anchor_local_classify ⟨2025, 7, 1⟩ ("1 ЛИПНЯ".toList)
    ⟨2025, 7, 1⟩ (kyivMidnight ⟨2025, 7, 1⟩) DayKey.today (by decide)

/-- C3 as stated is false: for an instant at which the caller's local
civil date is 2025-07-01 while the Kyiv civil date is already 2025-07-02
(a host clock some hours behind Kyiv, before local midnight), a message
dated 2 July is classified `Tomorrow` by the code, whereas
classification against now's civil date in the publication timezone —
the spec's contract — yields `Today`. -/
theorem c3_local_vs_kyiv_cex :
    classifyMessage ⟨2025, 7, 1⟩ (nextDay ⟨2025, 7, 1⟩) ("2 ЛИПНЯ".toList)
        = MsgClass.relevant ⟨2025, 7, 2⟩ (kyivMidnight ⟨2025, 7, 2⟩) DayKey.tomorrow ∧
      specClassifyDay ⟨2025, 7, 2⟩ ⟨2025, 7, 2⟩ = some DayKey.today ∧
      DayKey.tomorrow ≠ DayKey.today := by
  refine ⟨by decide, by decide, by decide⟩

/-! ## Claim C4 — year rollover -/

/-- C4: for every message the screening accepts, the year of the
resolved date is `now.year + 1` when the parsed month is January and
now's month is December, `now.year - 1` when the parsed month is
December and now's month is January, and `now.year` otherwise. -/
theorem c4_year_rollover (today tomorrow : PDate) (text : List Char)
    (d : PDate) (a : AnchoredDate) (key : DayKey) (dn : Nat) (w : List Char) (m : Nat)
    (h : classifyMessage today tomorrow text = MsgClass.relevant d a key)
    (hs : searchDate text = some (dn, w))
    (hm : monthLookup (upperList w) = some m) :
    d.year = (if m = MONTH_JANUARY ∧ today.month = MONTH_DECEMBER then today.year + 1
      else if m = MONTH_DECEMBER ∧ today.month = MONTH_JANUARY then today.year - 1
      else today.year) := by
  obtain ⟨dn', w', m', hs', hm', hmk, _, _⟩ :=
    classifyMessage_relevant today tomorrow text d a key h
  rw [hs'] at hs
  injection hs with hs
  injection hs with hdn hw
  subst hdn
  subst hw
  rw [hm'] at hm
  injection hm with hmeq
  subst hmeq
  unfold mkDate at hmk
  split_ifs at hmk
  injection hmk with hmk
  rw [← hmk]
  exact resolveYear_eq _ today

/-- Witness for C4's theorem: the spec's rollover example — a message
dated `"1 СІЧНЯ"` processed when now is 2025-12-31 resolves to the year
2026. -/
theorem c4_year_rollover_witness :
    (⟨2026, 1, 1⟩ : PDate).year =
      (if 1 = MONTH_JANUARY ∧ (⟨2025, 12, 31⟩ : PDate).month = MONTH_DECEMBER then
        (⟨2025, 12, 31⟩ : PDate).year + 1
      else if 1 = MONTH_DECEMBER ∧ (⟨2025, 12, 31⟩ : PDate).month = MONTH_JANUARY then
        (⟨2025, 12, 31⟩ : PDate).year - 1
      else (⟨2025, 12, 31⟩ : PDate).year) :=
  c4_year_rollover ⟨2025, 12, 31⟩ (nextDay ⟨2025, 12, 31⟩) ("1 СІЧНЯ".toList)
    ⟨2026, 1, 1⟩ (kyivMidnight ⟨2026, 1, 1⟩) DayKey.tomorrow 1 ("СІЧНЯ".toList) 1
    (by decide) (by decide) (by decide)

/-! ## Claim C5 — which date occurrence decides -/

/-- C5 (amended): the date resolver takes the first occurrence of a
day-number followed by a run of Cyrillic letters; the message proceeds
only if that word is a recognized month name (case-insensitively), and
is skipped entirely both when no such occurrence exists and when the
first occurrence's word is not a recognized month — even if a later
day-number-plus-recognized-month occurrence exists. -/
theorem c5_first_word_decides (today tomorrow : PDate) (text : List Char) :
    (searchDate text = none → classifyMessage today tomorrow text = MsgClass.skip) ∧
      (∀ dn w, searchDate text = some (dn, w) → monthLookup (upperList w) = none →
        classifyMessage today tomorrow text = MsgClass.skip) := by
  constructor
  · intro hs
    unfold classifyMessage
    by_cases hc : mentionsIgnoredCity text = true
    · rw [if_pos hc]
    · rw [if_neg hc, hs]
  · intro dn w hs hm
    unfold classifyMessage
    by_cases hc : mentionsIgnoredCity text = true
    · rw [if_pos hc]
    · rw [if_neg hc, hs]
      simp [hm]

/-- Witness for C5's theorem: `"5 АБВ"` has a first (and only)
day-number-plus-word occurrence with an unrecognized word. -/
theorem c5_first_word_decides_witness :
    classifyMessage ⟨2025, 7, 1⟩ ⟨2025, 7, 2⟩ ("5 АБВ".toList) = MsgClass.skip :=
  (c5_first_word_decides ⟨2025, 7, 1⟩ ⟨2025, 7, 2⟩ ("5 АБВ".toList)).2 5 ("АБВ".toList)
    (by decide) (by decide)

/-- C5 as stated is false: `"1 АБВ 2 СІЧНЯ"` contains a day-number
immediately followed by a recognized month name (`"2 СІЧНЯ"`, resolving
to 2 January — the local civil date below, so per the claim the message
carries a date and is not to be skipped), yet the code's resolver stops
at the earlier occurrence `"1 АБВ"`, whose word is not a month, and
skips the message entirely. -/
theorem c5_first_occurrence_cex :
    specFirstDayMonth ("1 АБВ 2 СІЧНЯ".toList) = some (2, 1) ∧
      searchDate ("1 АБВ 2 СІЧНЯ".toList) = some (1, "АБВ".toList) ∧
      monthLookup (upperList ("АБВ".toList)) = none ∧
      classifyMessage ⟨2025, 1, 2⟩ ⟨2025, 1, 3⟩ ("1 АБВ 2 СІЧНЯ".toList) = MsgClass.skip := by
  refine ⟨by decide, by decide, by decide, by decide⟩

/-! ## Claim C6 — emergency status injection changes only the status -/

/-- C6: for a group and day key present in both the Yasno and the CEK
schedule, `_inject_emergency_status` copies exactly the emergency status
onto the CEK day record when the Yasno status is the emergency value —
the record `{ cd with status := emergency }` keeps the CEK slots, date
and raw ranges — and leaves the CEK day record entirely unchanged
otherwise; every other group of the CEK schedule is untouched.  The
Yasno schedule is only read (the embedding is a pure function of it). -/
theorem c6_inject_emergency_frame (g : List Char) (yasno cek : Schedule)
    (yg cg : GroupSched) (key : DayKey) (yd cd : DayRecord)
    (hy : lookupG yasno g = some yg) (hc : lookupG cek g = some cg)
    (hyd : dayGet yg key = some yd) (hcd : dayGet cg key = some cd) :
    ∃ cg', lookupG (injectEmergencyStatus g yasno cek) g = some cg' ∧
      (yd.status = OutStatus.emergencyShutdowns →
        dayGet cg' key = some { cd with status := OutStatus.emergencyShutdowns }) ∧
      (yd.status ≠ OutStatus.emergencyShutdowns → dayGet cg' key = some cd) ∧
      (∀ g', g' ≠ g → lookupG (injectEmergencyStatus g yasno cek) g' = lookupG cek g') := by
  have he : injectEmergencyStatus g yasno cek =
      updateG cek g
        { todayRec := injectDay yg.todayRec cg.todayRec,
          tomorrowRec := injectDay yg.tomorrowRec cg.tomorrowRec } := by
    unfold injectEmergencyStatus
    rw [hy, hc]
  rw [he]
  refine ⟨_, lookupG_updateG_self _ _ _, ?_, ?_, ?_⟩
  · intro hst
    cases key
    · show injectDay yg.todayRec cg.todayRec = _
      rw [show yg.todayRec = some yd from hyd, show cg.todayRec = some cd from hcd]
      simp [injectDay, hst]
    · show injectDay yg.tomorrowRec cg.tomorrowRec = _
      rw [show yg.tomorrowRec = some yd from hyd, show cg.tomorrowRec = some cd from hcd]
      simp [injectDay, hst]
  · intro hst
    cases key
    · show injectDay yg.todayRec cg.todayRec = _
      rw [show yg.todayRec = some yd from hyd, show cg.todayRec = some cd from hcd]
      simp [injectDay, hst]
    · show injectDay yg.tomorrowRec cg.tomorrowRec = _
      rw [show yg.tomorrowRec = some yd from hyd, show cg.tomorrowRec = some cd from hcd]
      simp [injectDay, hst]
  · intro g' hne
    exact lookupG_updateG_ne cek g g' _ hne

/-- Witness for C6's theorem: the spec's end-to-end scenario — CEK has
group `1.1` Today with `ScheduleApplies`, Yasno reports
`EmergencyShutdowns`; the final record keeps the CEK slots with the
emergency status. -/
theorem c6_inject_emergency_frame_witness :
    lookupDay (injectEmergencyStatus ("1.1".toList) yasnoEx cekEx) ("1.1".toList) DayKey.today
      = some { cdEx with status := OutStatus.emergencyShutdowns } := by
  obtain ⟨cg', hcg, hemerg, _, _⟩ :=
    c6_inject_emergency_frame ("1.1".toList) yasnoEx cekEx ⟨some ydEx, none⟩ ⟨some cdEx, none⟩
      DayKey.today ydEx cdEx (by decide) (by decide) (by decide) (by decide)
  rw [lookupDay, hcg, Option.some_bind]
  exact hemerg (by decide)

/-! ## Claim C7 — fallback and hard failure -/

/-- C7: each source's failure is absorbed locally (a failed fetch
reaches the combine step as an absent value, modelled by `none`, and an
empty fetched schedule is falsy); the reconciliation delivers no
schedule exactly when the CEK data has no entry for the caller's group
and the Yasno side yields no data; and when the CEK side lacks the
group while the Yasno schedule has data, the Yasno schedule is delivered
wholesale. -/
theorem c7_combine_fallback (group : List Char) (yasno cek : Option Schedule) :
    (combineSources group yasno cek = none ↔
      ((∀ s, cek = some s → lookupG s group = none) ∧
        (∀ s, yasno = some s → s = ([] : Schedule)))) ∧
    ((∀ s, cek = some s → lookupG s group = none) →
      ∀ yS, yasno = some yS → yS ≠ ([] : Schedule) →
        combineSources group yasno cek = some yS) := by
  cases cek with
  | none =>
      cases yasno with
      | none => simp [combineSources]
      | some yS =>
          by_cases hy : yS = ([] : Schedule)
          · subst hy
            simp [combineSources]
          · simp [combineSources, hy]
  | some cekS =>
      cases hl : lookupG cekS group with
      | some gg =>
          constructor
          · constructor
            · intro hcon
              simp [combineSources, hl] at hcon
            · intro ⟨h1, _⟩
              have h2 := h1 cekS rfl
              rw [hl] at h2
              cases h2
          · intro h1 yS _ _
            have h2 := h1 cekS rfl
            rw [hl] at h2
            cases h2
      | none =>
          cases yasno with
          | none => simp [combineSources, hl]
          | some yS =>
              by_cases hy : yS = ([] : Schedule)
              · subst hy
                simp [combineSources, hl]
              · simp [combineSources, hl, hy]

/-- Witness for C7's theorem: with the CEK fetch failed and a non-empty
Yasno schedule, the Yasno schedule is delivered wholesale. -/
theorem c7_combine_fallback_witness :
    combineSources ("1.1".toList)
      (some [("1.1".toList, ⟨some (waitRecord ⟨2025, 7, 1⟩), none⟩)]) none =
      some [("1.1".toList, ⟨some (waitRecord ⟨2025, 7, 1⟩), none⟩)] :=
  (c7_combine_fallback ("1.1".toList)
    (some [("1.1".toList, ⟨some (waitRecord ⟨2025, 7, 1⟩), none⟩)]) none).2
    (by intro s hs; cases hs) _ rfl (by decide)

/-! ## Claim C8 — every group ends with both day entries -/

theorem lookupG_fillMissingDays (sched : Schedule) (today tomorrow : PDate) (g : List Char) :
    lookupG (fillMissingDays sched today tomorrow) g =
      (lookupG sched g).map (fillGroup today tomorrow) := by
  induction sched with
  | nil => rfl
  | cons p rest ih =>
      obtain ⟨k, v⟩ := p
      simp only [fillMissingDays, List.map] at ih ⊢
      by_cases h : k = g
      · simp [lookupG, h]
      · simp [lookupG, h, ih]

/-- C8: `_fill_missing_days` gives every group present in the schedule
both a Today and a Tomorrow entry: an existing day entry is kept
unchanged, a missing one is synthesized as `waitRecord` — status
`WaitingForSchedule`, empty slot list, date anchored at the respective
day's midnight in the Kyiv zone; and every group of a completed
`_parse_messages_to_schedule` run carries both entries. -/
theorem c8_fill_missing_days (sched : Schedule) (today tomorrow : PDate)
    (g : List Char) (gs : GroupSched) (h : lookupG sched g = some gs) :
    lookupG (fillMissingDays sched today tomorrow) g =
      some { todayRec := some (match gs.todayRec with | some d => d | none => waitRecord today),
             tomorrowRec :=
               some (match gs.tomorrowRec with | some d => d | none => waitRecord tomorrow) } ∧
      (∀ d, gs.todayRec = some d →
        (fillGroup today tomorrow gs).todayRec = some d) ∧
      (gs.todayRec = none →
        (fillGroup today tomorrow gs).todayRec = some (waitRecord today)) ∧
      (∀ d, gs.tomorrowRec = some d →
        (fillGroup today tomorrow gs).tomorrowRec = some d) ∧
      (gs.tomorrowRec = none →
        (fillGroup today tomorrow gs).tomorrowRec = some (waitRecord tomorrow)) ∧
      (waitRecord today).status = OutStatus.waitingForSchedule ∧
      (waitRecord today).slots = [] ∧
      (waitRecord today).date = kyivMidnight today ∧
      (waitRecord tomorrow).date = kyivMidnight tomorrow ∧
      (∀ msgs sched', parseMessagesToSchedule today msgs = some sched' →
        ∀ g' gs', lookupG sched' g' = some gs' →
          gs'.todayRec.isSome = true ∧ gs'.tomorrowRec.isSome = true) := by
  refine ⟨?_, ?_, ?_, ?_, ?_, rfl, rfl, rfl, rfl, ?_⟩
  · rw [lookupG_fillMissingDays, h]
    rfl
  · intro d hd
    simp [fillGroup, hd]
  · intro hd
    simp [fillGroup, hd]
  · intro d hd
    simp [fillGroup, hd]
  · intro hd
    simp [fillGroup, hd]
  · intro msgs sched' hp g' gs' hg'
    rw [parseMessagesToSchedule] at hp
    simp only [Option.map_eq_some'] at hp
    obtain ⟨base, _, hfill⟩ := hp
    subst hfill
    rw [lookupG_fillMissingDays] at hg'
    cases hb : lookupG base g' with
    | none =>
        rw [hb] at hg'
        cases hg'
    | some gsb =>
        rw [hb] at hg'
        injection hg' with hg'
        subst hg'
        constructor <;> simp [fillGroup]

/-- Witness for C8's theorem: a group holding only a Today entry gets a
synthesized Tomorrow entry. -/
theorem c8_fill_missing_days_witness :
    lookupG (fillMissingDays
        [("1.1".toList, ⟨some (waitRecord ⟨2025, 7, 1⟩), none⟩)] ⟨2025, 7, 1⟩ ⟨2025, 7, 2⟩)
        ("1.1".toList) =
      some ⟨some (waitRecord ⟨2025, 7, 1⟩), some (waitRecord ⟨2025, 7, 2⟩)⟩ :=
  (c8_fill_missing_days [("1.1".toList, ⟨some (waitRecord ⟨2025, 7, 1⟩), none⟩)]
    ⟨2025, 7, 1⟩ ⟨2025, 7, 2⟩ ("1.1".toList) ⟨some (waitRecord ⟨2025, 7, 1⟩), none⟩
    (by decide)).1

/-- Witness for C10's theorem: a full-update message naming group `1.1`
in two segments keeps only the second segment's range. -/
theorem c10_full_update_per_segment_witness :
    (lookupDay (parseMessageBody ("📌 1.1 02:00 - 03:00 📌 1.1 05:00 - 06:00".toList)
          (kyivMidnight ⟨2025, 7, 1⟩) DayKey.tomorrow true []) ("1.1".toList)
        DayKey.tomorrow).map DayRecord.rawRanges = some (sortRanges [(300, 360)]) ∧
      messageRangesFor ("1.1".toList) ("📌 1.1 02:00 - 03:00 📌 1.1 05:00 - 06:00".toList)
        = [(120, 180)] ++ [(300, 360)] := by
  obtain ⟨d, h1, h2, h3, h4⟩ :=
    c10_full_update_per_segment [] ("📌 1.1 02:00 - 03:00 📌 1.1 05:00 - 06:00".toList)
      (kyivMidnight ⟨2025, 7, 1⟩) DayKey.tomorrow ("1.1".toList)
      [] ("📌 1.1".toList) (" 02:00 - 03:00 ".toList) ("📌 1.1".toList) (" 05:00 - 06:00".toList)
      [(120, 180)] [(300, 360)]
      (by decide) (by decide) (by decide) (by decide) (by decide) (by decide) (by decide)
      (by decide) (by decide) (by decide) (by decide) (by decide)
  rw [h1]
  exact ⟨by rw [Option.map_some']; rw [h2], h4⟩

end Cek
